import Mathlib

/-!
# saylang/chain: the chain-integrity core of `main.go`

A shallow embedding of the block model (`Block`, `calculateHash`), the block
producer (`generateBlock`), the link validator (`isBlockValid`), the fork-choice
rule (`replaceChain`), the serial submission flow of `handleConn` /
`handleWriteBlock` and the same flow split into its statements for several
goroutines, followed by the properties of the specification.

Conventions of the embedding:
* a Go `string` is its byte sequence (`GoString`);
* a Go `int` is a mathematical integer, and `+` on it wraps in two's
  complement at `intSize` bits (`goAdd`);
* the package-level variable `Blockchain` is passed explicitly as a
  `List Block`;
* the clock is read by the caller: functions that call `time.Now()` take the
  rendered reading `t.String()` as an argument.
-/

namespace Chain

/-! ## Go values -/

/-- Go `string`: an immutable sequence of bytes. -/
abbrev GoString := List UInt8

/-- Width in bits of Go's `int` (64-bit targets). -/
def intSize : Nat := 64

/-- Two's-complement wrap of an integer to a signed `w`-bit value. -/
def wrapInt (w : Nat) (x : Int) : Int :=
  (x + 2 ^ (w - 1)) % 2 ^ w - 2 ^ (w - 1)

/-- Go `a + b` on `int`. -/
def goAdd (a b : Int) : Int := wrapInt intSize (a + b)

/-- Go `byte(x)`: the low eight bits. -/
def byteOf (x : Int) : UInt8 := UInt8.ofNat (x % 256).toNat

/-! ## `string(int)`: Go's integer-to-string conversion

`string(v)` for an integer `v` is the UTF-8 encoding of the code point `v`
(runtime `intstring` and `encoderune`), not its decimal numeral. -/

def runeError : Int := 0xFFFD
def maxRune : Int := 0x10FFFF
def surrogateMin : Int := 0xD800
def surrogateMax : Int := 0xDFFF
def rune1Max : Int := 0x7F
def rune2Max : Int := 0x7FF
def rune3Max : Int := 0xFFFF

/-- Three-byte UTF-8 form of `r`. -/
def encode3 (r : Int) : GoString :=
  [(0xE0 : UInt8) ||| byteOf (r >>> 12),
   (0x80 : UInt8) ||| (byteOf (r >>> 6) &&& 0x3F),
   (0x80 : UInt8) ||| (byteOf r &&& 0x3F)]

/-- Four-byte UTF-8 form of `r`. -/
def encode4 (r : Int) : GoString :=
  [(0xF0 : UInt8) ||| byteOf (r >>> 18),
   (0x80 : UInt8) ||| (byteOf (r >>> 12) &&& 0x3F),
   (0x80 : UInt8) ||| (byteOf (r >>> 6) &&& 0x3F),
   (0x80 : UInt8) ||| (byteOf r &&& 0x3F)]

/-- Runtime `encoderune`: the switch is on `i = uint32(r)`. -/
def encoderune (r : Int) : GoString :=
  let i : Int := r % 2 ^ 32
  if i ≤ rune1Max then [byteOf r]
  else if i ≤ rune2Max then
    [(0xC0 : UInt8) ||| byteOf (r >>> 6), (0x80 : UInt8) ||| (byteOf r &&& 0x3F)]
  else if i > maxRune ∨ (surrogateMin ≤ i ∧ i ≤ surrogateMax) then encode3 runeError
  else if i ≤ rune3Max then encode3 r
  else encode4 r

/-- Runtime `intstring`: a value that does not fit a `rune` (`int32`) becomes
`runeError` before it is encoded. -/
def intstring (v : Int) : GoString :=
  let v := if wrapInt 32 v ≠ v then runeError else v
  encoderune v

/-! ## SHA-256 (`crypto/sha256`) and hexadecimal rendering (`encoding/hex`) -/

/-- Round constants `_K`. -/
def sha256K : List Nat :=
  [0x428a2f98, 0x71374491, 0xb5c0fbcf, 0xe9b5dba5, 0x3956c25b, 0x59f111f1, 0x923f82a4, 0xab1c5ed5,
   0xd807aa98, 0x12835b01, 0x243185be, 0x550c7dc3, 0x72be5d74, 0x80deb1fe, 0x9bdc06a7, 0xc19bf174,
   0xe49b69c1, 0xefbe4786, 0x0fc19dc6, 0x240ca1cc, 0x2de92c6f, 0x4a7484aa, 0x5cb0a9dc, 0x76f988da,
   0x983e5152, 0xa831c66d, 0xb00327c8, 0xbf597fc7, 0xc6e00bf3, 0xd5a79147, 0x06ca6351, 0x14292967,
   0x27b70a85, 0x2e1b2138, 0x4d2c6dfc, 0x53380d13, 0x650a7354, 0x766a0abb, 0x81c2c92e, 0x92722c85,
   0xa2bfe8a1, 0xa81a664b, 0xc24b8b70, 0xc76c51a3, 0xd192e819, 0xd6990624, 0xf40e3585, 0x106aa070,
   0x19a4c116, 0x1e376c08, 0x2748774c, 0x34b0bcb5, 0x391c0cb3, 0x4ed8aa4a, 0x5b9cca4f, 0x682e6ff3,
   0x748f82ee, 0x78a5636f, 0x84c87814, 0x8cc70208, 0x90befffa, 0xa4506ceb, 0xbef9a3f7, 0xc67178f2]

/-- Addition of `uint32` values. -/
def add32 (a b : Nat) : Nat := (a + b) % 2 ^ 32

/-- Rotation of a `uint32` to the right by `n` bits (`bits.RotateLeft32(x, -n)`). -/
def rotr32 (x n : Nat) : Nat := ((x >>> n) ||| (x <<< (32 - n))) % 2 ^ 32

/-- The eight chaining words `h[0..7]` of a SHA-256 digest state. -/
structure Sha256State where
  h0 : Nat
  h1 : Nat
  h2 : Nat
  h3 : Nat
  h4 : Nat
  h5 : Nat
  h6 : Nat
  h7 : Nat
deriving DecidableEq

/-- Initial chaining value. -/
def sha256Init : Sha256State :=
  ⟨0x6a09e667, 0xbb67ae85, 0x3c6ef372, 0xa54ff53a, 0x510e527f, 0x9b05688c, 0x1f83d9ab, 0x5be0cd19⟩

/-- Big-endian `uint32` read at byte offset `j` of a chunk. -/
def beWord (p : List UInt8) (j : Nat) : Nat :=
  ((p.getD j 0).toNat <<< 24) ||| ((p.getD (j + 1) 0).toNat <<< 16) |||
    ((p.getD (j + 2) 0).toNat <<< 8) ||| (p.getD (j + 3) 0).toNat

/-- One step of the message-schedule loop `for i := 16; i < 64; i++`. -/
def scheduleStep (w : List Nat) (i : Nat) : List Nat :=
  let v1 := w.getD (i - 2) 0
  let t1 := rotr32 v1 17 ^^^ rotr32 v1 19 ^^^ (v1 >>> 10)
  let v2 := w.getD (i - 15) 0
  let t2 := rotr32 v2 7 ^^^ rotr32 v2 18 ^^^ (v2 >>> 3)
  w ++ [add32 (add32 (add32 t1 (w.getD (i - 7) 0)) t2) (w.getD (i - 16) 0)]

/-- The 64-word message schedule of one 64-byte chunk. -/
def schedule (p : List UInt8) : List Nat :=
  ((List.range 48).map (· + 16)).foldl scheduleStep ((List.range 16).map fun i => beWord p (i * 4))

/-- One round of the compression loop, on the working variables `a..h`. -/
def sha256Round (w : List Nat) (s : Sha256State) (i : Nat) : Sha256State :=
  let t1 := add32 (add32 (add32 (add32 s.h7
      (rotr32 s.h4 6 ^^^ rotr32 s.h4 11 ^^^ rotr32 s.h4 25))
      ((s.h4 &&& s.h5) ^^^ ((s.h4 ^^^ 0xffffffff) &&& s.h6)))
      (sha256K.getD i 0)) (w.getD i 0)
  let t2 := add32 (rotr32 s.h0 2 ^^^ rotr32 s.h0 13 ^^^ rotr32 s.h0 22)
      ((s.h0 &&& s.h1) ^^^ (s.h0 &&& s.h2) ^^^ (s.h1 &&& s.h2))
  ⟨add32 t1 t2, s.h0, s.h1, s.h2, add32 s.h3 t1, s.h4, s.h5, s.h6⟩

/-- The body of `blockGeneric` for one 64-byte chunk `p`. -/
def sha256Block (d : Sha256State) (p : List UInt8) : Sha256State :=
  let w := schedule p
  let r := (List.range 64).foldl (sha256Round w) d
  ⟨add32 d.h0 r.h0, add32 d.h1 r.h1, add32 d.h2 r.h2, add32 d.h3 r.h3,
   add32 d.h4 r.h4, add32 d.h5 r.h5, add32 d.h6 r.h6, add32 d.h7 r.h7⟩

/-- Big-endian bytes of a `uint32`. -/
def putUint32 (x : Nat) : List UInt8 :=
  [UInt8.ofNat (x >>> 24), UInt8.ofNat (x >>> 16), UInt8.ofNat (x >>> 8), UInt8.ofNat x]

/-- Big-endian bytes of a `uint64`. -/
def putUint64 (x : Nat) : List UInt8 :=
  putUint32 ((x % 2 ^ 64) >>> 32) ++ putUint32 (x % 2 ^ 32)

/-- The padding `checkSum` appends: `0x80`, zeros up to 56 mod 64, then the
bit length as a `uint64`. -/
def sha256Pad (msg : List UInt8) : List UInt8 :=
  let len := msg.length
  let n := if len % 64 < 56 then 56 - len % 64 else 64 + 56 - len % 64
  msg ++ ((0x80 : UInt8) :: List.replicate (n - 1) 0) ++ putUint64 (len <<< 3)

/-- The digest computed by `h := sha256.New(); h.Write(msg); h.Sum(nil)`. -/
def sha256Sum (msg : List UInt8) : List UInt8 :=
  let p := sha256Pad msg
  let d := (List.range (p.length / 64)).foldl
    (fun d k => sha256Block d ((p.drop (64 * k)).take 64)) sha256Init
  putUint32 d.h0 ++ putUint32 d.h1 ++ putUint32 d.h2 ++ putUint32 d.h3 ++
    putUint32 d.h4 ++ putUint32 d.h5 ++ putUint32 d.h6 ++ putUint32 d.h7

/-- The table `hextable = "0123456789abcdef"`. -/
def hextable : List UInt8 :=
  [48, 49, 50, 51, 52, 53, 54, 55, 56, 57, 97, 98, 99, 100, 101, 102]

/-- Go `hex.EncodeToString`: two lower-case digits per byte. -/
def hexEncodeToString (src : List UInt8) : GoString :=
  src.flatMap fun v => [hextable.getD (v >>> 4).toNat 0, hextable.getD (v &&& 0x0f).toNat 0]

/-! ## The block model (`main.go`, lines 21-35 and 198-205) -/

/-- The record type `Block`, fields in declaration order. -/
structure Block where
  Index : Int
  Timestamp : GoString
  BPM : Int
  Hash : GoString
  PrevHash : GoString
deriving DecidableEq

/-- Go `error`; the nil error is `none`. -/
abbrev GoError := GoString

/-- The string `record` of `calculateHash`:
`string(block.Index) + block.Timestamp + string(block.BPM) + block.PrevHash`. -/
def record (block : Block) : GoString :=
  intstring block.Index ++ block.Timestamp ++ intstring block.BPM ++ block.PrevHash

/-- Source `calculateHash`: the lower-case hexadecimal SHA-256 digest of `record`. -/
def calculateHash (block : Block) : GoString :=
  let hashed := sha256Sum (record block)
  hexEncodeToString hashed

/-! ## Producer, validator and fork choice (lines 184-227) -/

/-- The zero value of `Block` (`var newBlock Block`). -/
def zeroBlock : Block := ⟨0, [], 0, [], []⟩

/-- Source `generateBlock`; `now` is `time.Now().String()` as read inside the
call. The second component is the returned `error`. -/
def generateBlock (oldBlock : Block) (BPM : Int) (now : GoString) : Block × Option GoError :=
  let newBlock := zeroBlock
  let newBlock := { newBlock with Index := goAdd oldBlock.Index 1 }
  let newBlock := { newBlock with Timestamp := now }
  let newBlock := { newBlock with BPM := BPM }
  let newBlock := { newBlock with PrevHash := oldBlock.Hash }
  let newBlock := { newBlock with Hash := calculateHash newBlock }
  (newBlock, none)

/-- Source `isBlockValid`: three guarded early returns, then `true`. -/
def isBlockValid (newBlock oldBlock : Block) : Bool :=
  if goAdd oldBlock.Index 1 ≠ newBlock.Index then false
  else if oldBlock.Hash ≠ newBlock.PrevHash then false
  else if calculateHash newBlock ≠ newBlock.Hash then false
  else true

/-- Source `replaceChain`: the first argument is the value of the global
`Blockchain` before the call, the result its value after. -/
def replaceChain (Blockchain newBlocks : List Block) : List Block :=
  if newBlocks.length > Blockchain.length then newBlocks else Blockchain

/-! ## The store and the serial submission flow (lines 46-50, 83-91, 170-179) -/

/-- Go index expression `s[i]` on a slice; `none` is the run-time panic
"index out of range". -/
def sliceIndex (s : List Block) (i : Int) : Option Block :=
  if 0 ≤ i ∧ i < (s.length : Int) then s[i.toNat]? else none

/-- The tip read `Blockchain[len(Blockchain)-1]`. -/
def tipRead (Blockchain : List Block) : Option Block :=
  sliceIndex Blockchain ((Blockchain.length : Int) - 1)

/-- The genesis block literal of `main`: `Block{0, t.String(), 0, "", ""}`. -/
def genesisBlock (now : GoString) : Block := ⟨0, now, 0, [], []⟩

/-- The store after start-up: `Blockchain = append(Blockchain, genesisBlock)`
on the nil slice. -/
def initialChain (now : GoString) : List Block := [] ++ [genesisBlock now]

/-- One submission run on its own, lines 83-91 of `handleConn` and 170-179 of
`handleWriteBlock`: the result is the value of `Blockchain` afterwards, `none`
when an index expression panics. -/
def submit (Blockchain : List Block) (bpm : Int) (now : GoString) : Option (List Block) :=
  match tipRead Blockchain with
  | none => none
  | some oldBlock =>
    match generateBlock oldBlock bpm now with
    | (_, some _) => some Blockchain
    | (newBlock, none) =>
      match tipRead Blockchain with
      | none => none
      | some tip =>
        if isBlockValid newBlock tip then
          let newBlockchain := Blockchain ++ [newBlock]
          some (replaceChain Blockchain newBlockchain)
        else some Blockchain

/-- The states of the store reachable from start-up by serial submissions. -/
inductive Reachable : List Block → Prop
  | start (now : GoString) : Reachable (initialChain now)
  | step {s t : List Block} (bpm : Int) (now : GoString) :
      Reachable s → submit s bpm now = some t → Reachable t

/-- Start-up followed by the submissions `subs` (payload and clock reading of
each), run one after another. -/
def runSubmissions (start : GoString) (subs : List (Int × GoString)) : Option (List Block) :=
  subs.foldl (fun st p => st.bind fun s => submit s p.1 p.2) (some (initialChain start))

/-! ## Submission flows run by several goroutines (lines 64, 76 and 83-91)

`main` starts one goroutine per connection and each runs the statements of
lines 83, 88, 89 and 90 against the shared `Blockchain`; the source takes no
lock, so the statements of different flows may alternate. -/

/-- Where one submission flow stands, with the local variables it holds:
before line 83 (payload parsed, clock not yet read), before line 88
(`newBlock` generated), before line 89 (validated), before line 90
(`newBlockchain` built), or past line 91. -/
inductive Flow where
  | line83 (bpm : Int) (now : GoString)
  | line88 (newBlock : Block)
  | line89 (newBlock : Block)
  | line90 (newBlockchain : List Block)
  | done
deriving DecidableEq

/-- The next statement of a flow, run against the current value of
`Blockchain`: the result is the value of `Blockchain` afterwards and the flow
after the statement, `none` when an index expression panics. -/
def flowStep (Blockchain : List Block) : Flow → Option (List Block × Flow)
  | Flow.line83 bpm now =>
    match tipRead Blockchain with
    | none => none
    | some oldBlock =>
      match generateBlock oldBlock bpm now with
      | (_, some _) => some (Blockchain, Flow.done)
      | (newBlock, none) => some (Blockchain, Flow.line88 newBlock)
  | Flow.line88 newBlock =>
    match tipRead Blockchain with
    | none => none
    | some tip =>
      if isBlockValid newBlock tip then some (Blockchain, Flow.line89 newBlock)
      else some (Blockchain, Flow.done)
  | Flow.line89 newBlock => some (Blockchain, Flow.line90 (Blockchain ++ [newBlock]))
  | Flow.line90 newBlockchain => some (replaceChain Blockchain newBlockchain, Flow.done)
  | Flow.done => some (Blockchain, Flow.done)

/-- The flows run under a schedule: each entry names the flow whose next
statement runs; an entry that names no flow is skipped. -/
def runSchedule (Blockchain : List Block) (flows : List Flow) :
    List Nat → Option (List Block × List Flow)
  | [] => some (Blockchain, flows)
  | k :: rest =>
    match flows[k]? with
    | none => runSchedule Blockchain flows rest
    | some f =>
      match flowStep Blockchain f with
      | none => none
      | some (chain, g) => runSchedule chain (flows.set k g) rest

/-! ## Sample values -/

/-- The bytes of `2018-01-01 00:00:00 +0000 UTC`, a start-up clock reading. -/
def sampleStart : GoString :=
  [50, 48, 49, 56, 45, 48, 49, 45, 48, 49, 32, 48, 48, 58, 48, 48, 58, 48, 48, 32,
   43, 48, 48, 48, 48, 32, 85, 84, 67]

/-- The bytes of `2018-01-01 00:00:05 +0000 UTC`, a later clock reading. -/
def sampleNow : GoString :=
  [50, 48, 49, 56, 45, 48, 49, 45, 48, 49, 32, 48, 48, 58, 48, 48, 58, 48, 53, 32,
   43, 48, 48, 48, 48, 32, 85, 84, 67]

/-- The block generated from the sample genesis block with payload 64. -/
def sampleBlock : Block := (generateBlock (genesisBlock sampleStart) 64 sampleNow).1

/-- The bytes of `2018-01-01 00:00:06 +0000 UTC`, the clock reading of a second flow. -/
def sampleLater : GoString :=
  [50, 48, 49, 56, 45, 48, 49, 45, 48, 49, 32, 48, 48, 58, 48, 48, 58, 48, 54, 32,
   43, 48, 48, 48, 48, 32, 85, 84, 67]

/-- The block generated from the sample genesis block with payload 70. -/
def lateBlock : Block := (generateBlock (genesisBlock sampleStart) 70 sampleLater).1

/-- A block whose `Timestamp` is the one byte `<` and whose `PrevHash` is empty. -/
def collisionLeft : Block := ⟨1, [60], 60, [], []⟩

/-- A block whose `Timestamp` is empty and whose `PrevHash` is the one byte `<`. -/
def collisionRight : Block := ⟨1, [], 60, [], [60]⟩

/-- Another genesis block, with a later clock reading. -/
def otherGenesis : Block := genesisBlock sampleNow

/-- The characters of `cc6bc46d04892e76a50e18251c61c289fa1b79d430616a989f0be37753ce0fb8`. -/
def genesisDigest : GoString :=
  [99, 99, 54, 98, 99, 52, 54, 100, 48, 52, 56, 57, 50, 101, 55, 54,
   97, 53, 48, 101, 49, 56, 50, 53, 49, 99, 54, 49, 99, 50, 56, 57,
   102, 97, 49, 98, 55, 57, 100, 52, 51, 48, 54, 49, 54, 97, 57, 56,
   57, 102, 48, 98, 101, 51, 55, 55, 53, 51, 99, 101, 48, 102, 98, 56]

/-- The characters of `d00ace815540c8e2f0c2242bdffe50d0af32c06e52fe15133d368d8b76efad9c`. -/
def sampleDigest : GoString :=
  [100, 48, 48, 97, 99, 101, 56, 49, 53, 53, 52, 48, 99, 56, 101, 50,
   102, 48, 99, 50, 50, 52, 50, 98, 100, 102, 102, 101, 53, 48, 100, 48,
   97, 102, 51, 50, 99, 48, 54, 101, 53, 50, 102, 101, 49, 53, 49, 51,
   51, 100, 51, 54, 56, 100, 56, 98, 55, 54, 101, 102, 97, 100, 57, 99]

/-- The characters of `bc224aca0eefaf4ceb164a6cb677a31ab3614a17462a6ce30834e8cae862ff0e`. -/
def collisionDigest : GoString :=
  [98, 99, 50, 50, 52, 97, 99, 97, 48, 101, 101, 102, 97, 102, 52, 99,
   101, 98, 49, 54, 52, 97, 54, 99, 98, 54, 55, 55, 97, 51, 49, 97,
   98, 51, 54, 49, 52, 97, 49, 55, 52, 54, 50, 97, 54, 99, 101, 51,
   48, 56, 51, 52, 101, 56, 99, 97, 101, 56, 54, 50, 102, 102, 48, 101]

/-- The characters of `56473b89355b359f3d5be481196c43877b6ef197ccdb3501df8c2a7affc3bcb7`. -/
def lateDigest : GoString :=
  [53, 54, 52, 55, 51, 98, 56, 57, 51, 53, 53, 98, 51, 53, 57, 102,
   51, 100, 53, 98, 101, 52, 56, 49, 49, 57, 54, 99, 52, 51, 56, 55,
   55, 98, 54, 101, 102, 49, 57, 55, 99, 99, 100, 98, 51, 53, 48, 49,
   100, 102, 56, 99, 50, 97, 55, 97, 102, 102, 99, 51, 98, 99, 98, 55]

/-! ## Auxiliary facts -/

set_option maxRecDepth 1000000 in
/-- The digest of `abc` (FIPS 180-4 example, one chunk). -/
theorem sha256Sum_abc :
    sha256Sum [97, 98, 99] =
      [186, 120, 22, 191, 143, 1, 207, 234, 65, 65, 64, 222, 93, 174, 34, 35,
       176, 3, 97, 163, 150, 23, 122, 156, 180, 16, 255, 97, 242, 0, 21, 173] := by
  rfl

set_option maxRecDepth 1000000 in
/-- The digest of the 56-byte FIPS 180-4 example message (two chunks). -/
theorem sha256Sum_two_chunks :
    sha256Sum
      [97, 98, 99, 100, 98, 99, 100, 101, 99, 100, 101, 102, 100, 101, 102, 103,
       101, 102, 103, 104, 102, 103, 104, 105, 103, 104, 105, 106, 104, 105, 106, 107,
       105, 106, 107, 108, 106, 107, 108, 109, 107, 108, 109, 110, 108, 109, 110, 111,
       109, 110, 111, 112, 110, 111, 112, 113] =
      [36, 141, 106, 97, 210, 6, 56, 184, 229, 192, 38, 147, 12, 62, 96, 57,
       163, 60, 228, 89, 100, 255, 33, 103, 246, 236, 237, 212, 25, 219, 6, 193] := by
  rfl

set_option maxRecDepth 1000000 in
/-- The digest of the empty message. -/
theorem sha256Sum_nil :
    sha256Sum [] =
      [227, 176, 196, 66, 152, 252, 28, 20, 154, 251, 244, 200, 153, 111, 185, 36,
       39, 174, 65, 228, 100, 155, 147, 76, 164, 149, 153, 27, 120, 82, 184, 85] := by
  rfl

set_option maxRecDepth 1000000 in
theorem calculateHash_genesis_sample :
    calculateHash (genesisBlock sampleStart) = genesisDigest := by
  rfl

set_option maxRecDepth 1000000 in
theorem sampleBlock_eq : sampleBlock = ⟨1, sampleNow, 64, sampleDigest, []⟩ := by
  rfl

set_option maxRecDepth 1000000 in
theorem calculateHash_collisionLeft : calculateHash collisionLeft = collisionDigest := by
  rfl

set_option maxRecDepth 1000000 in
theorem calculateHash_collisionRight : calculateHash collisionRight = collisionDigest := by
  rfl

theorem wrapInt_intSize_of_range (x : Int) (h0 : -(2 ^ 63) ≤ x) (h1 : x < 2 ^ 63) :
    wrapInt intSize x = x := by
  simp only [wrapInt, intSize]
  norm_num
  omega

theorem goAdd_one_of_nat (n : Nat) (h : ((n : Int) + 1) < 2 ^ 63) :
    goAdd (n : Int) 1 = ((n + 1 : Nat) : Int) := by
  unfold goAdd
  rw [wrapInt_intSize_of_range _ (by omega) h]
  push_cast
  rfl

theorem putUint32_length (x : Nat) : (putUint32 x).length = 4 := rfl

theorem sha256Sum_length (msg : List UInt8) : (sha256Sum msg).length = 32 := by
  simp [sha256Sum, putUint32_length]

theorem hexEncodeToString_length (src : List UInt8) :
    (hexEncodeToString src).length = 2 * src.length := by
  induction src with
  | nil => rfl
  | cons v rest ih =>
    have hcons : hexEncodeToString (v :: rest) =
        [hextable.getD (v >>> 4).toNat 0, hextable.getD (v &&& 0x0f).toNat 0] ++
          hexEncodeToString rest := by
      simp [hexEncodeToString]
    rw [hcons, List.length_append, ih]
    simp
    omega

theorem calculateHash_length (block : Block) : (calculateHash block).length = 64 := by
  simp [calculateHash, hexEncodeToString_length, sha256Sum_length]

theorem calculateHash_ne_nil (block : Block) : calculateHash block ≠ [] := by
  intro h
  have := calculateHash_length block
  rw [h] at this
  simp at this

theorem calculateHash_of_record_eq (a b : Block) (h : record a = record b) :
    calculateHash a = calculateHash b := by
  simp [calculateHash, h]

theorem calculateHash_setHash (block : Block) (h : GoString) :
    calculateHash { block with Hash := h } = calculateHash block := rfl

theorem generateBlock_fst (oldBlock : Block) (BPM : Int) (now : GoString) :
    (generateBlock oldBlock BPM now).1 =
      ⟨goAdd oldBlock.Index 1, now, BPM,
        calculateHash ⟨goAdd oldBlock.Index 1, now, BPM, [], oldBlock.Hash⟩, oldBlock.Hash⟩ := rfl

theorem generateBlock_snd (oldBlock : Block) (BPM : Int) (now : GoString) :
    (generateBlock oldBlock BPM now).2 = none := rfl

theorem generateBlock_hash (oldBlock : Block) (BPM : Int) (now : GoString) :
    (generateBlock oldBlock BPM now).1.Hash = calculateHash (generateBlock oldBlock BPM now).1 := rfl

theorem isBlockValid_eq_true_iff (newBlock oldBlock : Block) :
    isBlockValid newBlock oldBlock = true ↔
      newBlock.Index = goAdd oldBlock.Index 1 ∧ newBlock.PrevHash = oldBlock.Hash ∧
        calculateHash newBlock = newBlock.Hash := by
  unfold isBlockValid
  by_cases h1 : goAdd oldBlock.Index 1 = newBlock.Index
  · by_cases h2 : oldBlock.Hash = newBlock.PrevHash
    · by_cases h3 : calculateHash newBlock = newBlock.Hash
      · simp [h1, h2, h3]
      · simp [h1, h2, h3]
    · have h2b : ¬ newBlock.PrevHash = oldBlock.Hash := fun h => h2 h.symm
      simp [h1, h2, h2b]
  · have h1b : ¬ newBlock.Index = goAdd oldBlock.Index 1 := fun h => h1 h.symm
    simp [h1, h1b]

theorem isBlockValid_generateBlock (oldBlock : Block) (BPM : Int) (now : GoString) :
    isBlockValid (generateBlock oldBlock BPM now).1 oldBlock = true := by
  rw [isBlockValid_eq_true_iff]
  exact ⟨rfl, rfl, rfl⟩

/-! ## The link validator -/

/-- C1: for every pair of blocks, `isBlockValid newBlock oldBlock` is true if
and only if `newBlock.Index == oldBlock.Index + 1` (Go addition),
`newBlock.PrevHash == oldBlock.Hash` and `calculateHash(newBlock) ==
newBlock.Hash` all hold; if any one of the three fails it is false. -/
theorem isBlockValid_iff_three_checks (newBlock oldBlock : Block) :
    (isBlockValid newBlock oldBlock = true ↔
      (newBlock.Index = goAdd oldBlock.Index 1 ∧ newBlock.PrevHash = oldBlock.Hash ∧
        calculateHash newBlock = newBlock.Hash)) ∧
    (isBlockValid newBlock oldBlock = false ↔
      (newBlock.Index ≠ goAdd oldBlock.Index 1 ∨ newBlock.PrevHash ≠ oldBlock.Hash ∨
        calculateHash newBlock ≠ newBlock.Hash)) := by
  have h := isBlockValid_eq_true_iff newBlock oldBlock
  refine ⟨h, ?_⟩
  rw [← Bool.not_eq_true, h]
  constructor
  · intro hn
    by_contra hc
    push_neg at hc
    exact hn hc
  · rintro (h1 | h2 | h3) ⟨k1, k2, k3⟩
    · exact h1 k1
    · exact h2 k2
    · exact h3 k3

/-- C4: when `isBlockValid candidate predecessor` is true, changing exactly one
of the candidate's `Index`, `PrevHash` or `Hash` to any different value, the
other fields kept, gives a block that `isBlockValid` rejects against the same
predecessor. -/
theorem isBlockValid_single_corruption (candidate predecessor : Block)
    (hvalid : isBlockValid candidate predecessor = true) :
    (∀ i : Int, i ≠ candidate.Index →
      isBlockValid { candidate with Index := i } predecessor = false) ∧
    (∀ p : GoString, p ≠ candidate.PrevHash →
      isBlockValid { candidate with PrevHash := p } predecessor = false) ∧
    (∀ h : GoString, h ≠ candidate.Hash →
      isBlockValid { candidate with Hash := h } predecessor = false) := by
  obtain ⟨k1, k2, k3⟩ := (isBlockValid_eq_true_iff candidate predecessor).1 hvalid
  refine ⟨?_, ?_, ?_⟩
  · intro i hi
    rw [← Bool.not_eq_true, isBlockValid_eq_true_iff]
    rintro ⟨j1, -, -⟩
    exact hi (j1.trans k1.symm)
  · intro p hp
    rw [← Bool.not_eq_true, isBlockValid_eq_true_iff]
    rintro ⟨-, j2, -⟩
    exact hp (j2.trans k2.symm)
  · intro h hh
    rw [← Bool.not_eq_true, isBlockValid_eq_true_iff]
    rintro ⟨-, -, j3⟩
    rw [calculateHash_setHash] at j3
    exact hh (j3.symm.trans k3)

/-- C4, at the block generated from the sample genesis block: it is valid, and
each single corruption of it is rejected. -/
theorem isBlockValid_single_corruption_witness :
    isBlockValid sampleBlock (genesisBlock sampleStart) = true ∧
    isBlockValid { sampleBlock with Index := 7 } (genesisBlock sampleStart) = false ∧
    isBlockValid { sampleBlock with PrevHash := [97] } (genesisBlock sampleStart) = false ∧
    isBlockValid { sampleBlock with Hash := [] } (genesisBlock sampleStart) = false :=
  have hv : isBlockValid sampleBlock (genesisBlock sampleStart) = true :=
    isBlockValid_generateBlock (genesisBlock sampleStart) 64 sampleNow
  have hc := isBlockValid_single_corruption sampleBlock (genesisBlock sampleStart) hv
  ⟨hv, hc.1 7 (by decide), hc.2.1 [97] (by decide),
    hc.2.2 [] (fun h => calculateHash_ne_nil _ ((generateBlock_hash _ _ _).symm.trans h.symm))⟩

/-! ## The block producer -/

/-- C2: for every tip block, payload and clock reading, `generateBlock` returns
the nil error and a block `b` with `b.Index == oldBlock.Index + 1` (Go
addition), `b.BPM == BPM`, `b.PrevHash == oldBlock.Hash`, `b.Timestamp` the
clock reading and `b.Hash == calculateHash(b)`. -/
theorem generateBlock_spec (oldBlock : Block) (BPM : Int) (now : GoString) :
    (generateBlock oldBlock BPM now).2 = none ∧
    (generateBlock oldBlock BPM now).1.Index = goAdd oldBlock.Index 1 ∧
    (generateBlock oldBlock BPM now).1.BPM = BPM ∧
    (generateBlock oldBlock BPM now).1.PrevHash = oldBlock.Hash ∧
    (generateBlock oldBlock BPM now).1.Timestamp = now ∧
    (generateBlock oldBlock BPM now).1.Hash = calculateHash (generateBlock oldBlock BPM now).1 :=
  ⟨rfl, rfl, rfl, rfl, rfl, rfl⟩

/-! ## The store: tip, submission and reachable states -/

theorem tipRead_eq_getLast (s : List Block) : tipRead s = s.getLast? := by
  unfold tipRead sliceIndex
  cases s with
  | nil => simp
  | cons b rest =>
    have hlen : ((((b :: rest).length : Nat) : Int) - 1).toNat = (b :: rest).length - 1 := by
      simp
    have hcond : (0 : Int) ≤ (((b :: rest).length : Nat) : Int) - 1 ∧
        (((b :: rest).length : Nat) : Int) - 1 < (((b :: rest).length : Nat) : Int) := by
      constructor
      · simp
      · omega
    rw [if_pos hcond, hlen, List.getLast?_eq_getElem?]

theorem replaceChain_append_one (s : List Block) (b : Block) :
    replaceChain s (s ++ [b]) = s ++ [b] := by
  simp [replaceChain]

theorem submit_of_ne_nil (s : List Block) (hne : s ≠ []) (bpm : Int) (now : GoString) :
    submit s bpm now = some (s ++ [(generateBlock (s.getLast hne) bpm now).1]) := by
  have htip : tipRead s = some (s.getLast hne) := by
    rw [tipRead_eq_getLast, List.getLast?_eq_getLast _ hne]
  have hgen : generateBlock (s.getLast hne) bpm now =
      ((generateBlock (s.getLast hne) bpm now).1, none) := rfl
  unfold submit
  rw [htip]
  simp only []
  rw [hgen]
  simp only [isBlockValid_generateBlock, if_true, replaceChain_append_one]


theorem initialChain_eq (now : GoString) : initialChain now = [genesisBlock now] := rfl

theorem reachable_ne_nil (s : List Block) (hs : Reachable s) : s ≠ [] := by
  induction hs with
  | start now => simp [initialChain_eq]
  | step bpm now _ hsub ih =>
    rw [submit_of_ne_nil _ ih] at hsub
    cases hsub
    simp

theorem runSubmissions_snoc (start : GoString) (subs : List (Int × GoString)) (p : Int × GoString) :
    runSubmissions start (subs ++ [p]) =
      (runSubmissions start subs).bind fun s => submit s p.1 p.2 := by
  simp [runSubmissions, List.foldl_append]

theorem runSubmissions_reachable (start : GoString) (subs : List (Int × GoString)) :
    ∃ s, runSubmissions start subs = some s ∧ Reachable s := by
  induction subs using List.reverseRecOn with
  | nil => exact ⟨initialChain start, rfl, Reachable.start start⟩
  | append_singleton subs p ih =>
    obtain ⟨s, hrun, hs⟩ := ih
    have hsub := submit_of_ne_nil s (reachable_ne_nil s hs) p.1 p.2
    refine ⟨_, ?_, Reachable.step p.1 p.2 hs hsub⟩
    rw [runSubmissions_snoc, hrun]
    exact hsub

theorem reachable_runSubmissions (s : List Block) (hs : Reachable s) :
    ∃ start subs, runSubmissions start subs = some s := by
  induction hs with
  | start now => exact ⟨now, [], rfl⟩
  | step bpm now _ hsub ih =>
    obtain ⟨start, subs, hrun⟩ := ih
    refine ⟨start, subs ++ [(bpm, now)], ?_⟩
    rw [runSubmissions_snoc, hrun]
    exact hsub

theorem reachable_sample : Reachable [genesisBlock sampleStart, sampleBlock] :=
  Reachable.step 64 sampleNow (Reachable.start sampleStart)
    (submit_of_ne_nil (initialChain sampleStart) (by simp [initialChain_eq]) 64 sampleNow)

theorem reachable_links_and_positions (s : List Block) (hs : Reachable s) :
    (∀ (i : Nat) (prev cur : Block), s[i]? = some prev → s[i + 1]? = some cur →
      cur.Index = goAdd prev.Index 1 ∧ cur.PrevHash = prev.Hash ∧
        cur.Hash = calculateHash cur) ∧
    (∀ (i : Nat) (b : Block), s[i]? = some b → (i : Int) < 2 ^ (intSize - 1) →
      b.Index = (i : Int)) := by
  induction hs with
  | start now =>
    constructor
    · intro i prev cur _ hcur
      simp [initialChain_eq] at hcur
    · intro i b hb _
      rw [initialChain_eq] at hb
      cases i with
      | zero =>
        simp at hb
        subst hb
        rfl
      | succ k => simp at hb
  | @step s t bpm now hs hsub ih =>
    have hne := reachable_ne_nil s hs
    rw [submit_of_ne_nil s hne] at hsub
    cases hsub
    obtain ⟨ihadj, ihidx⟩ := ih
    have hlast : s[s.length - 1]? = some (s.getLast hne) := by
      rw [← List.getLast?_eq_getElem?, List.getLast?_eq_getLast _ hne]
    have hpos : 0 < s.length := List.length_pos.mpr hne
    constructor
    · intro i prev cur hprev hcur
      by_cases hi : i + 1 < s.length
      · rw [List.getElem?_append_left (by omega)] at hprev
        rw [List.getElem?_append_left hi] at hcur
        exact ihadj i prev cur hprev hcur
      · have hlt : i + 1 < (s ++ [(generateBlock (s.getLast hne) bpm now).1]).length := by
          by_contra hc
          rw [List.getElem?_eq_none (by omega)] at hcur
          cases hcur
        simp at hlt
        have hi2 : i = s.length - 1 := by omega
        subst hi2
        rw [List.getElem?_append_left (by omega), hlast] at hprev
        have hidx : s.length - 1 + 1 = s.length := by omega
        rw [hidx, List.getElem?_append_right (le_refl _)] at hcur
        simp at hprev hcur
        subst hprev hcur
        exact ⟨rfl, rfl, rfl⟩
    · intro i b hb hi
      by_cases hlt : i < s.length
      · rw [List.getElem?_append_left hlt] at hb
        exact ihidx i b hb hi
      · have hlt2 : i < (s ++ [(generateBlock (s.getLast hne) bpm now).1]).length := by
          by_contra hc
          rw [List.getElem?_eq_none (by omega)] at hb
          cases hb
        simp at hlt2
        have hi2 : i = s.length := by omega
        subst hi2
        rw [List.getElem?_append_right (le_refl _)] at hb
        simp at hb
        subst hb
        have hprevIdx := ihidx (s.length - 1) (s.getLast hne) hlast (by
          have : ((s.length - 1 : Nat) : Int) ≤ (s.length : Int) := by omega
          omega)
        show goAdd (s.getLast hne).Index 1 = (s.length : Int)
        rw [hprevIdx]
        have hbound : (((s.length - 1 : Nat) : Int) + 1) < 2 ^ 63 := by
          simp only [intSize] at hi
          norm_num at hi
          omega
        rw [goAdd_one_of_nat _ hbound]
        congr 1
        omega

/-! ## The record string and the digest -/

set_option maxRecDepth 100000 in
theorem hexDigits_decode_fin : ∀ n : Fin 256,
    hextable.indexOf (hextable.getD ((UInt8.mk (BitVec.ofFin n)) >>> 4).toNat 0) * 16 +
      hextable.indexOf (hextable.getD ((UInt8.mk (BitVec.ofFin n)) &&& 0x0f).toNat 0) = n.val := by
  decide

theorem hexDigits_decode (v : UInt8) :
    hextable.indexOf (hextable.getD (v >>> 4).toNat 0) * 16 +
      hextable.indexOf (hextable.getD (v &&& 0x0f).toNat 0) = v.toNat := by
  rcases v with ⟨⟨n⟩⟩
  exact hexDigits_decode_fin n

theorem hexEncodeToString_cons (v : UInt8) (rest : List UInt8) :
    hexEncodeToString (v :: rest) =
      hextable.getD (v >>> 4).toNat 0 :: hextable.getD (v &&& 0x0f).toNat 0 ::
        hexEncodeToString rest := by
  simp [hexEncodeToString]

theorem hexEncodeToString_injective (a b : List UInt8)
    (h : hexEncodeToString a = hexEncodeToString b) : a = b := by
  induction a generalizing b with
  | nil =>
    cases b with
    | nil => rfl
    | cons w rest => rw [hexEncodeToString_cons] at h; cases h
  | cons v rest ih =>
    cases b with
    | nil => rw [hexEncodeToString_cons] at h; cases h
    | cons w rest2 =>
      rw [hexEncodeToString_cons, hexEncodeToString_cons] at h
      injection h with h1 h
      injection h with h2 h
      have hv := hexDigits_decode v
      have hw := hexDigits_decode w
      rw [h1, h2, hw] at hv
      have hvw : v = w := UInt8.toNat.inj hv.symm
      rw [hvw, ih rest2 h]

theorem record_ne_of_aligned (a b : Block) (hI : a.Index = b.Index) (hB : a.BPM = b.BPM)
    (hlen : a.Timestamp.length = b.Timestamp.length ∨ a.PrevHash.length = b.PrevHash.length)
    (hne : a.Timestamp ≠ b.Timestamp ∨ a.PrevHash ≠ b.PrevHash) :
    record a ≠ record b := by
  intro h
  unfold record at h
  rw [hI, hB] at h
  have key : a.Timestamp = b.Timestamp ∧ a.PrevHash = b.PrevHash := by
    rcases hlen with hl | hl
    · simp only [List.append_assoc] at h
      have h2 := List.append_cancel_left h
      obtain ⟨k1, k2⟩ := List.append_inj h2 hl
      exact ⟨k1, List.append_cancel_left k2⟩
    · obtain ⟨k1, k2⟩ := List.append_inj' h hl
      simp only [List.append_assoc] at k1
      have k3 := List.append_cancel_left k1
      exact ⟨List.append_cancel_right k3, k2⟩
  rcases hne with hn | hn
  · exact hn key.1
  · exact hn key.2

theorem calculateHash_eq_iff (a b : Block) :
    calculateHash a = calculateHash b ↔ sha256Sum (record a) = sha256Sum (record b) := by
  constructor
  · intro h
    exact hexEncodeToString_injective _ _ h
  · intro h
    simp [calculateHash, h]

/-- The conversion `string(int)` maps every value above `0x10FFFF` to the
replacement character, so two payloads in that range give the same record. -/
theorem record_collision_large_payload :
    record ⟨1, sampleNow, 2000000, [], []⟩ = record ⟨1, sampleNow, 3000000, [], []⟩ := by
  decide

/-- C5, as stated, fails: `collisionLeft` and `collisionRight` differ in
`Timestamp` and in `PrevHash`, and `calculateHash` builds the same record
string for both (the fields are concatenated without a separator), so their
digests are equal. -/
theorem record_not_injective :
    collisionLeft.Timestamp ≠ collisionRight.Timestamp ∧
    collisionLeft.PrevHash ≠ collisionRight.PrevHash ∧
    record collisionLeft = [1, 60, 60] ∧
    record collisionRight = [1, 60, 60] ∧
    calculateHash collisionLeft = collisionDigest ∧
    calculateHash collisionRight = collisionDigest :=
  ⟨by decide, by decide, by decide, by decide,
    calculateHash_collisionLeft, calculateHash_collisionRight⟩

/-- C5, amended: two blocks with the same `Index` and the same `BPM` whose
`Timestamp`s (or whose `PrevHash`es) have the same length, and that differ in
`Timestamp` or `PrevHash`, have different record strings; and the digests of
any two blocks are equal exactly when SHA-256 gives their record strings the
same sum. -/
theorem record_injective_on_aligned_strings (a b : Block)
    (hI : a.Index = b.Index) (hB : a.BPM = b.BPM)
    (hlen : a.Timestamp.length = b.Timestamp.length ∨ a.PrevHash.length = b.PrevHash.length)
    (hne : a.Timestamp ≠ b.Timestamp ∨ a.PrevHash ≠ b.PrevHash) :
    record a ≠ record b ∧
    (calculateHash a = calculateHash b ↔ sha256Sum (record a) = sha256Sum (record b)) :=
  ⟨record_ne_of_aligned a b hI hB hlen hne, calculateHash_eq_iff a b⟩

/-- C5, amended, at two blocks that differ only in their clock reading. -/
theorem record_injective_on_aligned_strings_witness :
    record ⟨1, sampleNow, 64, [], []⟩ ≠ record ⟨1, sampleStart, 64, [], []⟩ :=
  (record_injective_on_aligned_strings ⟨1, sampleNow, 64, [], []⟩ ⟨1, sampleStart, 64, [], []⟩
    rfl rfl (Or.inl (by decide)) (Or.inl (by decide))).1

/-! ## The genesis block -/

/-- C6, as stated, fails: at the clock reading `sampleStart` the genesis block
of `main` has Index 0, its `Hash` field is the empty string, and
`calculateHash` of it is the 64 characters of `genesisDigest`. -/
theorem genesis_hash_not_computed :
    (genesisBlock sampleStart).Hash = [] ∧
    calculateHash (genesisBlock sampleStart) = genesisDigest ∧
    ¬ ((genesisBlock sampleStart).Index = 0 ∧
      (genesisBlock sampleStart).Hash = calculateHash (genesisBlock sampleStart)) :=
  ⟨rfl, calculateHash_genesis_sample,
    fun h => calculateHash_ne_nil (genesisBlock sampleStart) h.2.symm⟩

/-- C6, amended: for every clock reading the store after start-up holds exactly
the genesis block, which has Index 0, the clock reading as Timestamp, BPM 0, an
empty PrevHash and an empty Hash; `calculateHash` of it is 64 characters long,
so the Hash field differs from it. -/
theorem genesis_fields (now : GoString) :
    initialChain now = [genesisBlock now] ∧
    (genesisBlock now).Index = 0 ∧
    (genesisBlock now).Timestamp = now ∧
    (genesisBlock now).BPM = 0 ∧
    (genesisBlock now).PrevHash = [] ∧
    (genesisBlock now).Hash = [] ∧
    (calculateHash (genesisBlock now)).length = 64 ∧
    (genesisBlock now).Hash ≠ calculateHash (genesisBlock now) :=
  ⟨rfl, rfl, rfl, rfl, rfl, rfl, calculateHash_length _,
    fun h => calculateHash_ne_nil (genesisBlock now) h.symm⟩

/-! ## The fork-choice rule -/

/-- C3: for every current chain and every candidate chain `C`, valid or not:
when `len(C) > len(current)` the stored chain after `replaceChain(C)` is `C`
and the tip read afterwards returns the last block of `C`; when
`len(C) <= len(current)`, equal length included, the stored chain is
unchanged; so the store changes exactly when `len(C) > len(current)`. -/
theorem replaceChain_longer_wins (Blockchain C : List Block) :
    (C.length > Blockchain.length →
      replaceChain Blockchain C = C ∧
        ∃ b, C.getLast? = some b ∧ tipRead (replaceChain Blockchain C) = some b) ∧
    (C.length ≤ Blockchain.length → replaceChain Blockchain C = Blockchain) ∧
    (replaceChain Blockchain C ≠ Blockchain ↔ C.length > Blockchain.length) := by
  refine ⟨?_, ?_, ?_⟩
  · intro hgt
    have hrep : replaceChain Blockchain C = C := by simp [replaceChain, hgt]
    have hne : C ≠ [] := by
      intro hnil
      rw [hnil] at hgt
      simp at hgt
    refine ⟨hrep, C.getLast hne, List.getLast?_eq_getLast _ hne, ?_⟩
    rw [hrep, tipRead_eq_getLast, List.getLast?_eq_getLast _ hne]
  · intro hle
    have hn : ¬ C.length > Blockchain.length := by omega
    simp [replaceChain, hn]
  · constructor
    · intro hchg
      by_contra hn
      exact hchg (by simp [replaceChain, hn])
    · intro hgt heq
      have hrep : replaceChain Blockchain C = C := by simp [replaceChain, hgt]
      rw [hrep] at heq
      rw [heq] at hgt
      omega

/-- C3, at concrete chains: a longer candidate replaces the store and becomes
the tip, a shorter one and one of equal length leave it unchanged. -/
theorem replaceChain_longer_wins_witness :
    replaceChain [genesisBlock sampleStart] [genesisBlock sampleStart, sampleBlock] =
      [genesisBlock sampleStart, sampleBlock] ∧
    replaceChain [genesisBlock sampleStart, sampleBlock] [otherGenesis] =
      [genesisBlock sampleStart, sampleBlock] ∧
    replaceChain [genesisBlock sampleStart] [otherGenesis] = [genesisBlock sampleStart] :=
  ⟨((replaceChain_longer_wins [genesisBlock sampleStart]
      [genesisBlock sampleStart, sampleBlock]).1 (by decide)).1,
    (replaceChain_longer_wins [genesisBlock sampleStart, sampleBlock] [otherGenesis]).2.1
      (by decide),
    (replaceChain_longer_wins [genesisBlock sampleStart] [otherGenesis]).2.1 (by decide)⟩

/-! ## One submission -/

/-- C7: for every non-empty stored chain, payload and clock reading, one
submission run on its own reads the last block as tip, generates a block from
it without error, finds it valid against the tip (the accepting branch), and
leaves the store equal to the old chain followed by exactly that block: the
length grows by one, every earlier position keeps its block, and the new tip
has `Index` = old tip `Index + 1` (Go addition) and `PrevHash` = old tip `Hash`. -/
theorem submit_appends_generated (Blockchain : List Block) (hne : Blockchain ≠ [])
    (bpm : Int) (now : GoString) :
    tipRead Blockchain = some (Blockchain.getLast hne) ∧
    (generateBlock (Blockchain.getLast hne) bpm now).2 = none ∧
    isBlockValid (generateBlock (Blockchain.getLast hne) bpm now).1 (Blockchain.getLast hne)
      = true ∧
    submit Blockchain bpm now =
      some (Blockchain ++ [(generateBlock (Blockchain.getLast hne) bpm now).1]) ∧
    (Blockchain ++ [(generateBlock (Blockchain.getLast hne) bpm now).1]).length =
      Blockchain.length + 1 ∧
    (∀ i : Nat, i < Blockchain.length →
      (Blockchain ++ [(generateBlock (Blockchain.getLast hne) bpm now).1])[i]? =
        Blockchain[i]?) ∧
    tipRead (Blockchain ++ [(generateBlock (Blockchain.getLast hne) bpm now).1]) =
      some (generateBlock (Blockchain.getLast hne) bpm now).1 ∧
    (generateBlock (Blockchain.getLast hne) bpm now).1.Index =
      goAdd (Blockchain.getLast hne).Index 1 ∧
    (generateBlock (Blockchain.getLast hne) bpm now).1.PrevHash =
      (Blockchain.getLast hne).Hash := by
  refine ⟨?_, rfl, isBlockValid_generateBlock _ _ _, submit_of_ne_nil _ hne _ _, ?_, ?_, ?_,
    rfl, rfl⟩
  · rw [tipRead_eq_getLast, List.getLast?_eq_getLast _ hne]
  · simp
  · intro i hi
    exact List.getElem?_append_left hi
  · rw [tipRead_eq_getLast]
    simp

/-- C7, from the one-block genesis chain with payload 64: the store becomes the
genesis block followed by the generated block, of length 2, and the new block
has Index 1, payload 64, the digest `sampleDigest` as Hash and the genesis Hash
(the empty string) as PrevHash. -/
theorem submit_appends_generated_witness :
    initialChain sampleStart ≠ [] ∧
    submit (initialChain sampleStart) 64 sampleNow =
      some [genesisBlock sampleStart, sampleBlock] ∧
    [genesisBlock sampleStart, sampleBlock].length = 2 ∧
    sampleBlock = ⟨1, sampleNow, 64, sampleDigest, []⟩ ∧
    sampleBlock.PrevHash = (genesisBlock sampleStart).Hash :=
  ⟨by decide,
    (submit_appends_generated (initialChain sampleStart) (by decide) 64 sampleNow).2.2.2.1,
    rfl, sampleBlock_eq, rfl⟩

/-! ## Invariants of the reachable states -/

/-- C9: in every state reachable from the one-block genesis chain by serial
submissions with arbitrary payloads and clock readings, every pair of adjacent
blocks `(prev, cur)` has `cur.Index == prev.Index + 1` (Go addition),
`cur.PrevHash == prev.Hash` and `cur.Hash == calculateHash(cur)`; the block at
every position `i` that a Go `int` can hold has `Index` `i`, and along those
positions the indices strictly increase. -/
theorem reachable_chain_integrity (s : List Block) (hs : Reachable s) :
    (∀ (i : Nat) (prev cur : Block), s[i]? = some prev → s[i + 1]? = some cur →
      cur.Index = goAdd prev.Index 1 ∧ cur.PrevHash = prev.Hash ∧
        cur.Hash = calculateHash cur) ∧
    (∀ (i : Nat) (b : Block), s[i]? = some b → (i : Int) < 2 ^ (intSize - 1) →
      b.Index = (i : Int)) ∧
    (∀ (i j : Nat) (bi bj : Block), i < j → s[i]? = some bi → s[j]? = some bj →
      (j : Int) < 2 ^ (intSize - 1) → bi.Index < bj.Index) := by
  obtain ⟨hadj, hidx⟩ := reachable_links_and_positions s hs
  refine ⟨hadj, hidx, ?_⟩
  intro i j bi bj hij hbi hbj hj
  have hi : (i : Int) < 2 ^ (intSize - 1) := by
    have : (i : Int) < (j : Int) := by exact_mod_cast hij
    omega
  rw [hidx i bi hbi hi, hidx j bj hbj hj]
  exact_mod_cast hij

/-- C9, at the state reached from the sample genesis chain by one submission
of payload 64: the second block links to the genesis block and the blocks at
positions 0 and 1 have Index 0 and 1. -/
theorem reachable_chain_integrity_witness :
    Reachable [genesisBlock sampleStart, sampleBlock] ∧
    (sampleBlock.Index = goAdd (genesisBlock sampleStart).Index 1 ∧
      sampleBlock.PrevHash = (genesisBlock sampleStart).Hash ∧
      sampleBlock.Hash = calculateHash sampleBlock) ∧
    (genesisBlock sampleStart).Index = 0 ∧
    sampleBlock.Index = 1 :=
  ⟨reachable_sample,
    (reachable_chain_integrity _ reachable_sample).1 0 (genesisBlock sampleStart) sampleBlock
      rfl rfl,
    (reachable_chain_integrity _ reachable_sample).2.1 0 (genesisBlock sampleStart) rfl
      (by decide),
    (reachable_chain_integrity _ reachable_sample).2.1 1 sampleBlock rfl (by decide)⟩

/-- C10: for every non-empty stored chain and every candidate chain, the empty
one included, the chain after `replaceChain` is non-empty; and every state
reachable from the genesis chain is non-empty, its tip read
`Blockchain[len(Blockchain)-1]` is in bounds and returns the last block, and a
further submission from it completes and leaves a non-empty chain. -/
theorem store_never_empty (Blockchain C s : List Block) (hne : Blockchain ≠ [])
    (hs : Reachable s) :
    replaceChain Blockchain C ≠ [] ∧
    s ≠ [] ∧
    (∃ b, tipRead s = some b ∧ s.getLast? = some b) ∧
    (∀ (bpm : Int) (now : GoString), ∃ t, submit s bpm now = some t ∧ t ≠ []) := by
  have hsne := reachable_ne_nil s hs
  refine ⟨?_, hsne, ?_, ?_⟩
  · unfold replaceChain
    split
    · rename_i hgt
      intro hnil
      rw [hnil] at hgt
      simp at hgt
    · exact hne
  · refine ⟨s.getLast hsne, ?_, List.getLast?_eq_getLast _ hsne⟩
    rw [tipRead_eq_getLast, List.getLast?_eq_getLast _ hsne]
  · intro bpm now
    exact ⟨_, submit_of_ne_nil s hsne bpm now, by simp⟩

/-- C10, at the sample genesis chain with the empty candidate, and at the state
reached by one submission. -/
theorem store_never_empty_witness :
    replaceChain [genesisBlock sampleStart] [] = [genesisBlock sampleStart] ∧
    replaceChain [genesisBlock sampleStart] [] ≠ [] ∧
    tipRead [genesisBlock sampleStart, sampleBlock] = some sampleBlock :=
  have h := store_never_empty [genesisBlock sampleStart] [] [genesisBlock sampleStart, sampleBlock]
    (by decide) reachable_sample
  ⟨rfl, h.1, by
    obtain ⟨b, hb, hlast⟩ := h.2.2.1
    rw [hb, ← hlast]
    rfl⟩

/-! ## Flows that alternate -/

theorem flowStep_serial (s : List Block) (bpm : Int) (now : GoString) :
    runSchedule s [Flow.line83 bpm now] [0, 0, 0, 0] =
      (submit s bpm now).map fun t => (t, [Flow.done]) := by
  cases htip : tipRead s with
  | none => simp [runSchedule, flowStep, submit, htip]
  | some tip =>
    have hgen : generateBlock tip bpm now = ((generateBlock tip bpm now).1, none) := rfl
    by_cases hv : isBlockValid (generateBlock tip bpm now).1 tip = true
    · simp only [runSchedule, flowStep, submit, htip, List.getElem?_cons_zero, List.set_cons_zero]
      rw [hgen]
      simp [runSchedule, flowStep, htip, hv]
    · simp only [runSchedule, flowStep, submit, htip, List.getElem?_cons_zero, List.set_cons_zero]
      rw [hgen]
      simp [runSchedule, flowStep, htip, hv]

set_option maxRecDepth 1000000 in
theorem lateBlock_eq : lateBlock = ⟨1, sampleLater, 70, lateDigest, []⟩ := by
  rfl

set_option maxRecDepth 1000000 in
theorem runSchedule_alternating :
    runSchedule (initialChain sampleStart)
        [Flow.line83 64 sampleNow, Flow.line83 70 sampleLater] [0, 0, 1, 1, 0, 0, 1, 1] =
      some ([genesisBlock sampleStart, sampleBlock, lateBlock], [Flow.done, Flow.done]) := by
  rfl

set_option maxRecDepth 1000000 in
theorem runSchedule_first_then_second :
    (runSchedule (initialChain sampleStart)
        [Flow.line83 64 sampleNow, Flow.line83 70 sampleLater]
        [0, 0, 0, 0, 1, 1, 1, 1]).map (fun r => r.1.map Block.Index) = some [0, 1, 2] := by
  rfl

set_option maxRecDepth 1000000 in
theorem runSchedule_second_then_first :
    (runSchedule (initialChain sampleStart)
        [Flow.line83 64 sampleNow, Flow.line83 70 sampleLater]
        [1, 1, 1, 1, 0, 0, 0, 0]).map (fun r => r.1.map Block.Index) = some [0, 1, 2] := by
  rfl

theorem not_reachable_alternating :
    ¬ Reachable [genesisBlock sampleStart, sampleBlock, lateBlock] := by
  intro h
  have hpos := (reachable_links_and_positions _ h).2 2 lateBlock rfl (by decide)
  revert hpos
  decide

/-- C8, evaluated on the code: two flows submit payloads 64 and 70 against the
genesis chain and their statements alternate as A83 A88 B83 B88 A89 A90 B89
B90. Both blocks are generated from the genesis block and both pass
`isBlockValid` against it; the first flow stores the two-block chain, the
second appends its block to that chain and `replaceChain` accepts the longer
result. The store ends as genesis, block 64, block 70 with indices 0, 1, 1,
the last block carrying the genesis `Hash` as `PrevHash`; this state is
reachable by no serial run of submissions, and either serial order of the two
flows gives indices 0, 1, 2. -/
theorem alternating_flows_share_index :
    runSchedule (initialChain sampleStart)
        [Flow.line83 64 sampleNow, Flow.line83 70 sampleLater] [0, 0, 1, 1, 0, 0, 1, 1] =
      some ([genesisBlock sampleStart, sampleBlock, lateBlock], [Flow.done, Flow.done]) ∧
    sampleBlock = ⟨1, sampleNow, 64, sampleDigest, []⟩ ∧
    lateBlock = ⟨1, sampleLater, 70, lateDigest, []⟩ ∧
    [genesisBlock sampleStart, sampleBlock, lateBlock].map Block.Index = [0, 1, 1] ∧
    lateBlock.PrevHash ≠ sampleBlock.Hash ∧
    ¬ Reachable [genesisBlock sampleStart, sampleBlock, lateBlock] ∧
    (runSchedule (initialChain sampleStart)
        [Flow.line83 64 sampleNow, Flow.line83 70 sampleLater]
        [0, 0, 0, 0, 1, 1, 1, 1]).map (fun r => r.1.map Block.Index) = some [0, 1, 2] ∧
    (runSchedule (initialChain sampleStart)
        [Flow.line83 64 sampleNow, Flow.line83 70 sampleLater]
        [1, 1, 1, 1, 0, 0, 0, 0]).map (fun r => r.1.map Block.Index) = some [0, 1, 2] :=
  ⟨runSchedule_alternating, sampleBlock_eq, lateBlock_eq, by decide,
    fun h => calculateHash_ne_nil _ ((generateBlock_hash _ _ _).symm.trans h.symm),
    not_reachable_alternating, runSchedule_first_then_second, runSchedule_second_then_first⟩

end Chain
